import Mathlib

/-!
Verification of the streaming tool-call orchestration engine of the
nash-local-server repository against its natural-language specification.

The definitions below are a shallow embedding of the Python sources:

* `src/app/stream_processor.py` — `StreamProcessor.process_chunk`,
  `StreamProcessor.get_assistant_message`,
  `StreamProcessor.execute_tool_calls_and_get_user_message`;
* `src/app/llm_handler.py` — `clean_up_tool_results_inline`,
  `get_response_metadata_from_headers`;
* `src/app/server.py` — the per-turn tail of `process_llm_stream`
  (message appends and the sleep/backoff event emission).

Modelling conventions:

* Python attributes that may be `None` are `Option`s; an attribute that is
  absent from the object altogether (so that a bare access raises
  `AttributeError`) is also modelled with `none` where the two cases are
  behaviourally identical, and with a dedicated `none`-vs-present encoding
  where they differ (see `Chunk.choices`).
* Escaping Python exceptions (`AttributeError`, `IndexError`, `TypeError`)
  are modelled by an `Option PyError` component threaded through the
  processing functions; computation stops at the first raised error and
  the state accumulated so far is returned alongside it.
* Python truthiness of an optional string (`None` and `""` are falsy) is
  the function `truthy`.
* Strings are Lean `String`s; Python slicing `s[:n]` is `List.take` on the
  underlying character list, which matches Python's per-character slicing.
* Clock times (the parsed ISO-8601 reset timestamps and the current UTC
  time) are rational numbers of seconds; `datetime.fromisoformat` parsing
  is modelled as already-parsed numeric fields, and the float arithmetic
  of CPython is modelled as exact rational arithmetic.
-/

/-- Escaping Python exception kinds relevant to the embedded code paths. -/
inductive PyError where
  | attributeError
  | indexError
  | typeError
  deriving Repr, DecidableEq

/-- The `function` sub-object of a streamed tool-call fragment and of a
materialized tool-call record: optional `name` and `arguments` strings.
`json.loads(tool_call.to_json())` round-trips these fields unchanged, so the
same shape serves both the delta fragment and the stored record. -/
structure FnFields where
  name : Option String := none
  arguments : Option String := none
  deriving Repr, DecidableEq

/-- One element of `choice.delta.tool_calls` in a streamed chunk. -/
structure ToolCallFragment where
  id : Option String := none
  function : Option FnFields := none
  deriving Repr, DecidableEq

/-- A materialized tool-call record as appended to `self.tool_calls`
(`stream_processor.py` line 44): the parsed JSON of an id-bearing fragment. -/
structure ToolCallRec where
  id : String
  function : Option FnFields := none
  deriving Repr, DecidableEq

/-- `choice.delta` of a streamed chunk. -/
structure Delta where
  content : Option String := none
  tool_calls : Option (List ToolCallFragment) := none
  deriving Repr, DecidableEq

/-- One element of `chunk.choices`.  `delta := none` models a choice whose
`delta` attribute is present but `None` (the content and tool-call
`hasattr` guards on a `None` delta are then false and those steps are
skipped, while the finish-reason step still runs). -/
structure Choice where
  delta : Option Delta := none
  finish_reason : Option String := none
  deriving Repr, DecidableEq

/-- A streamed chunk.  `choices := none` models an object with no `choices`
attribute at all: the guard on line 26 of `stream_processor.py`
(`not hasattr(chunk, "choices") and not chunk.choices`) then evaluates
`chunk.choices` and raises `AttributeError`. -/
structure Chunk where
  choices : Option (List Choice) := none
  deriving Repr, DecidableEq

/-- The `streamable_content` dictionary built by `process_chunk`. -/
structure StreamDelta where
  content : Option String := none
  tool_name : Option String := none
  tool_args : Option String := none
  deriving Repr, DecidableEq

/-- The mutable accumulator state of a `StreamProcessor` instance. -/
structure AccState where
  content : String := ""
  tool_calls : List ToolCallRec := []
  is_streaming : Bool := false
  finish_reason : Option String := none
  deriving Repr, DecidableEq

/-- Python truthiness of an optional string: `None` and `""` are falsy. -/
def truthy : Option String → Bool
  | none => false
  | some s => !s.isEmpty

/-- `tool_call_to_update["function"]["name"] += tool_call.function.name`
(`stream_processor.py` lines 56-57), guarded by truthiness of the incoming
fragment's name.  Subscripting a `null` function raises `TypeError`, as does
`None + str` when the stored name is `null`. -/
def bumpName (last : ToolCallRec) (fn : FnFields) : Except PyError ToolCallRec :=
  if truthy fn.name then
    match last.function with
    | none => .error .typeError
    | some lf =>
      match lf.name with
      | none => .error .typeError
      | some ln => .ok { last with function := some { lf with name := some (ln ++ fn.name.getD "") } }
  else .ok last

/-- `tool_call_to_update["function"]["arguments"] += tool_call.function.arguments`
(`stream_processor.py` lines 59-60), same error conditions as `bumpName`. -/
def bumpArgs (last : ToolCallRec) (fn : FnFields) : Except PyError ToolCallRec :=
  if truthy fn.arguments then
    match last.function with
    | none => .error .typeError
    | some lf =>
      match lf.arguments with
      | none => .error .typeError
      | some la => .ok { last with function := some { lf with arguments := some (la ++ fn.arguments.getD "") } }
  else .ok last

/-- The `self.tool_calls` mutation of one iteration of the
`for tool_call in choice.delta.tool_calls` loop (`stream_processor.py`
lines 38-61).  An id-bearing fragment appends a fresh record (the
`to_json`/`json.loads` round trip of a well-formed fragment never raises
`JSONDecodeError`, so that handler is dead in the model); an id-less
fragment updates the last record in place, raising `IndexError` when no
record has been opened and `AttributeError` when the fragment has no
function object. -/
def fragStep (tcs : List ToolCallRec) (f : ToolCallFragment) :
    List ToolCallRec × Option PyError :=
  if truthy f.id then
    (tcs ++ [{ id := f.id.getD "", function := f.function }], none)
  else
    match tcs.getLast? with
    | none => (tcs, some .indexError)
    | some last =>
      match f.function with
      | none => (tcs, some .attributeError)
      | some fn =>
        match bumpName last fn with
        | .error e => (tcs, some e)
        | .ok l1 =>
          match bumpArgs l1 fn with
          | .error e => (tcs, some e)
          | .ok l2 => (tcs.dropLast ++ [l2], none)

/-- The `streamable_content` updates of one fragment iteration (both the
id-bearing branch, lines 46-50, and the continuation branch, lines 58 and
61, set `tool_name`/`tool_args` exactly when the fragment's corresponding
field is truthy). -/
def fragDelta (sc : StreamDelta) (f : ToolCallFragment) : StreamDelta :=
  match f.function with
  | some fn =>
    let sc := if truthy fn.name then { sc with tool_name := fn.name } else sc
    if truthy fn.arguments then { sc with tool_args := fn.arguments } else sc
  | none => sc

/-- One iteration of the tool-call fragment loop: the state mutation and,
when it does not raise, the streamable-content updates. -/
def processFragment (st : AccState) (sc : StreamDelta) (f : ToolCallFragment) :
    AccState × StreamDelta × Option PyError :=
  match fragStep st.tool_calls f with
  | (_, some e) => (st, sc, some e)
  | (tcs1, none) => ({ st with tool_calls := tcs1 }, fragDelta sc f, none)

/-- The whole tool-call fragment loop, stopping at the first raised error. -/
def processFragList : AccState → StreamDelta → List ToolCallFragment →
    AccState × StreamDelta × Option PyError
  | st, sc, [] => (st, sc, none)
  | st, sc, f :: rest =>
    match processFragment st sc f with
    | (st1, sc1, some e) => (st1, sc1, some e)
    | (st1, sc1, none) => processFragList st1 sc1 rest

/-- The content-accumulation step of one choice (`stream_processor.py`
lines 33-35): a truthy content delta is appended to the running text and
reported in `streamable_content`. -/
def contentStep (st : AccState) (sc : StreamDelta) (c : Choice) :
    AccState × StreamDelta :=
  match c.delta with
  | some d =>
    match d.content with
    | some s =>
      if s.isEmpty then (st, sc)
      else ({ st with content := st.content ++ s }, { sc with content := some s })
    | none => (st, sc)
  | none => (st, sc)

/-- The tool-call fragments carried by a choice; an absent or `None`
`tool_calls` attribute contributes no iterations of the fragment loop. -/
def fragsOf (c : Choice) : List ToolCallFragment :=
  match c.delta with
  | some d => d.tool_calls.getD []
  | none => []

/-- The finish-reason step of one choice (`stream_processor.py` lines
63-66): a truthy finish reason flips `is_streaming` and records itself. -/
def finishStep (st : AccState) (c : Choice) : AccState :=
  if truthy c.finish_reason then
    { st with is_streaming := false, finish_reason := c.finish_reason }
  else st

/-- The body of the `for choice in chunk.choices` loop for one choice
(`stream_processor.py` lines 30-66): content accumulation, the tool-call
fragment loop, then the finish-reason update (skipped when a fragment
raised). -/
def processChoice (st : AccState) (sc : StreamDelta) (c : Choice) :
    AccState × StreamDelta × Option PyError :=
  let p := contentStep st sc c
  match processFragList p.1 p.2 (fragsOf c) with
  | (st2, sc2, some e) => (st2, sc2, some e)
  | (st2, sc2, none) => (finishStep st2 c, sc2, none)

/-- The `for choice in chunk.choices` loop, stopping at the first error. -/
def processChoices : AccState → StreamDelta → List Choice →
    AccState × StreamDelta × Option PyError
  | st, sc, [] => (st, sc, none)
  | st, sc, c :: rest =>
    match processChoice st sc c with
    | (st1, sc1, some e) => (st1, sc1, some e)
    | (st1, sc1, none) => processChoices st1 sc1 rest

/-- `StreamProcessor.process_chunk` (`stream_processor.py` lines 21-68):
sets `is_streaming`, initializes `streamable_content`, iterates the choices.
A chunk without a `choices` attribute raises `AttributeError` inside the
guard `not hasattr(chunk, "choices") and not chunk.choices` on line 26. -/
def process_chunk (st : AccState) (chunk : Chunk) :
    AccState × StreamDelta × Option PyError :=
  let st := { st with is_streaming := true }
  match chunk.choices with
  | none => (st, {}, some .attributeError)
  | some cs => processChoices st {} cs

/-- Feeding a list of chunks through one `StreamProcessor`, as the
orchestrator's `async for chunk in response` loop does; an escaping
exception aborts the run. -/
def runChunks : AccState → List Chunk → AccState × Option PyError
  | st, [] => (st, none)
  | st, ch :: rest =>
    match process_chunk st ch with
    | (st1, _, some e) => (st1, some e)
    | (st1, _, none) => runChunks st1 rest

/-- A single-choice chunk carrying exactly one tool-call fragment. -/
def chunkOfFragment (f : ToolCallFragment) : Chunk :=
  { choices := some [{ delta := some { content := none, tool_calls := some [f] } }] }

/-- A chunk wrapping a single given choice. -/
def singleChunk (c : Choice) : Chunk :=
  { choices := some [c] }

/-- Equality of the accumulator fields named by the spec's StreamState —
accumulated text, tool-call list and finish reason — ignoring the
transient `is_streaming` flag. -/
def eq3 (a b : AccState) : Prop :=
  a.content = b.content ∧ a.tool_calls = b.tool_calls ∧ a.finish_reason = b.finish_reason

/-- A conversation message, covering the dictionary shapes built by the
orchestration code: chat messages (`role`, `content`), assistant messages
with tool calls, and tool-result messages (`tool_call_id`, `name`,
`is_error`).  An absent `tool_calls` key is the empty list. -/
structure Message where
  role : String
  content : String
  tool_calls : List ToolCallRec := []
  tool_call_id : Option String := none
  name : Option String := none
  is_error : Option Bool := none
  deriving Repr, DecidableEq

/-- The truncation marker appended by `clean_up_tool_results_inline`
(`llm_handler.py` line 68). -/
def truncMarker : String := "... (Truncated. Rerun tool to operate on full results again.)"

/-- The per-message body of the `clean_up_tool_results_inline` loop
(`llm_handler.py` lines 66-69): a tool-role message whose content exceeds
5000 characters is replaced by its first 5000 characters plus the marker. -/
def truncateOld (m : Message) : Message :=
  if m.role = "tool" ∧ 5000 < m.content.length then
    { m with content := String.mk (m.content.data.take 5000 ++ truncMarker.data) }
  else m

/-- `clean_up_tool_results_inline` (`llm_handler.py` lines 58-70): applies
the truncation to every message except the last (`messages[:-1]`). -/
def clean_up_tool_results_inline : List Message → List Message
  | [] => []
  | [m] => [m]
  | m :: m2 :: rest => truncateOld m :: clean_up_tool_results_inline (m2 :: rest)

/-- One quota dimension parsed from the response headers: integer `limit`
and `remaining`, `reset` as the parsed ISO-8601 timestamp in seconds. -/
structure QuotaInfo where
  limit : Int
  remaining : Int
  reset : ℚ
  deriving Repr, DecidableEq

/-- The `metadata["limits"]` dictionary of `get_response_metadata_from_headers`. -/
structure LimitsTriple where
  input_tokens : QuotaInfo
  output_tokens : QuotaInfo
  requests : QuotaInfo
  deriving Repr, DecidableEq

/-- The nine `llm_provider-anthropic-ratelimit-*` response headers plus the
optional `response_cost` entry; a `none` field is an absent header.  Integer
headers are modelled as their parsed values and reset headers as their
parsed timestamps (seconds), since the Anthropic headers the code consumes
are well-formed by assumption (`llm_handler.py` line 132). -/
structure RLHeaders where
  itLimit : Option Int := none
  itRemaining : Option Int := none
  itReset : Option ℚ := none
  otLimit : Option Int := none
  otRemaining : Option Int := none
  otReset : Option ℚ := none
  rqLimit : Option Int := none
  rqRemaining : Option Int := none
  rqReset : Option ℚ := none
  respCost : Option ℚ := none
  deriving Repr, DecidableEq

/-- The metadata dictionary returned by `get_response_metadata_from_headers`;
`limits := none` is the initial empty `{}`. -/
structure RespMetadata where
  limits : Option LimitsTriple
  sleep_seconds : ℚ
  response_cost : ℚ
  deriving Repr, DecidableEq

/-- The `all(key in headers for key in [...])` guard over the nine
rate-limit headers (`llm_handler.py` lines 118-131). -/
def allNine (h : RLHeaders) : Bool :=
  h.itLimit.isSome && h.itRemaining.isSome && h.itReset.isSome &&
  h.otLimit.isSome && h.otRemaining.isSome && h.otReset.isSome &&
  h.rqLimit.isSome && h.rqRemaining.isSome && h.rqReset.isSome

/-- The `metadata["limits"]` value built on lines 133-149 of
`llm_handler.py` (defaults mirror `headers.get(key, 0)` / `..., ""`). -/
def parsedLimits (h : RLHeaders) : LimitsTriple :=
  { input_tokens := { limit := h.itLimit.getD 0, remaining := h.itRemaining.getD 0, reset := h.itReset.getD 0 }
    output_tokens := { limit := h.otLimit.getD 0, remaining := h.otRemaining.getD 0, reset := h.otReset.getD 0 }
    requests := { limit := h.rqLimit.getD 0, remaining := h.rqRemaining.getD 0, reset := h.rqReset.getD 0 } }

/-- The low-water-mark test `remaining <= limit * 0.1` of one dimension. -/
def lowQ (q : QuotaInfo) : Prop :=
  (q.remaining : ℚ) ≤ (q.limit : ℚ) * (1 / 10)

instance (q : QuotaInfo) : Decidable (lowQ q) := by
  unfold lowQ; infer_instance

/-- `get_response_metadata_from_headers` (`llm_handler.py` lines 109-178),
with the current UTC time `now` passed explicitly.  When all nine headers
are present the limits are materialized and `sleep_seconds` is the time to
the reset of the first dimension at or below 10%, in the order input
tokens, output tokens, requests; otherwise the limits stay empty and
`sleep_seconds` stays 0. -/
def get_response_metadata_from_headers (h : RLHeaders) (now : ℚ) : RespMetadata :=
  let cost := h.respCost.getD 0
  if allNine h then
    let L := parsedLimits h
    let sleep :=
      if lowQ L.input_tokens then L.input_tokens.reset - now
      else if lowQ L.output_tokens then L.output_tokens.reset - now
      else if lowQ L.requests then L.requests.reset - now
      else 0
    { limits := some L, sleep_seconds := sleep, response_cost := cost }
  else
    { limits := none, sleep_seconds := 0, response_cost := cost }

/-- `StreamProcessor.get_assistant_message` (`stream_processor.py` lines
70-100): plain assistant message when no tool calls were collected,
otherwise the tool-call-bearing shape. -/
def get_assistant_message (st : AccState) : Message :=
  if st.tool_calls = [] then { role := "assistant", content := st.content }
  else { role := "assistant", content := st.content, tool_calls := st.tool_calls }

/-- `StreamProcessor.execute_tool_calls_and_get_user_message`
(`stream_processor.py` lines 102-139).  The argument parsing, the MCP call
and its exception handling all happen inside a `try`/`except` that turns
any failure into an error-flagged message, so the external execution is an
oracle from the tool-call record to the resulting `(content, is_error)`
pair; one message is appended per tool call either way.  Subscripting
`tool_call["function"]["name"]` on a `null` function raises `TypeError`,
which no handler in that function catches (the `except` branch performs the
same subscript). -/
def execute_tool_calls_and_get_user_message
    (oracle : ToolCallRec → String × Bool) :
    List ToolCallRec → Except PyError (List Message)
  | [] => .ok []
  | tc :: rest =>
    match tc.function with
    | none => .error .typeError
    | some fn =>
      match execute_tool_calls_and_get_user_message oracle rest with
      | .error e => .error e
      | .ok ms =>
        .ok ({ role := "tool", content := (oracle tc).1, tool_call_id := some tc.id,
               name := fn.name, is_error := some (oracle tc).2 } :: ms)

/-- The messages appended to the conversation at the end of one provider
turn (`server.py` lines 147-151): the assistant message always, and — when
the finish reason is `tool_calls` — exactly the first tool-result message
(`messages_for_tool_call_results[0]`, raising `IndexError` when empty). -/
def turnAppendedMessages (st : AccState) (oracle : ToolCallRec → String × Bool) :
    Except PyError (List Message) :=
  let am := get_assistant_message st
  if st.finish_reason = some "tool_calls" then
    match execute_tool_calls_and_get_user_message oracle st.tool_calls with
    | .error e => .error e
    | .ok [] => .error .indexError
    | .ok (r :: _) => .ok [am, r]
  else .ok [am]

/-- Outward SSE events of `process_llm_stream` relevant to the backoff
path. -/
inductive SEvent where
  | toolResultEv (content : String)
  | sleepEv (s : ℚ)
  deriving Repr, DecidableEq

/-- One occurrence of the `if response_metadata["sleep_seconds"] > 0` block
(`server.py` lines 164-176): the events it yields and the time it sleeps. -/
def sleepBlock (s : ℚ) : List SEvent × ℚ :=
  if 0 < s then ([SEvent.sleepEv s], s) else ([], 0)

/-- The event/sleep tail of the `finish_reason == "tool_calls"` branch of
`process_llm_stream` (`server.py` lines 153-189): the `tool_result` event,
then the sleep block — which appears twice in sequence in the source, as a
verbatim duplicate at lines 164-176 and lines 177-189. -/
def toolCallsBranchEvents (toolContent : String) (s : ℚ) : List SEvent × ℚ :=
  let b1 := sleepBlock s
  let b2 := sleepBlock s
  (SEvent.toolResultEv toolContent :: (b1.1 ++ b2.1), b1.2 + b2.2)

/-- Concrete header fixture: all nine headers present, input-token and
output-token quotas both low (5% and 4% remaining). -/
def hdrsBothLow : RLHeaders :=
  { itLimit := some 100, itRemaining := some 5, itReset := some 40,
    otLimit := some 100, otRemaining := some 4, otReset := some 70,
    rqLimit := some 10, rqRemaining := some 10, rqReset := some 90 }

/-- Concrete header fixture: the requests-reset header is missing while all
other headers are present and every quota is fully exhausted. -/
def hdrsMissingOne : RLHeaders :=
  { itLimit := some 100, itRemaining := some 0, itReset := some 40,
    otLimit := some 100, otRemaining := some 0, otReset := some 70,
    rqLimit := some 10, rqRemaining := some 0, rqReset := none }

/-- Concrete tool-call record fixture used by witnesses. -/
def tcFix1 : ToolCallRec :=
  { id := "i1", function := some { name := some "f", arguments := some "\x7b\x7d" } }

/-- Second concrete tool-call record fixture. -/
def tcFix2 : ToolCallRec :=
  { id := "i2", function := some { name := some "g", arguments := some "\x7b\x7d" } }

/-- Accumulator-state fixture: a finished `tool_calls` turn that
materialized two tool calls. -/
def stTwoCalls : AccState :=
  { content := "c", tool_calls := [tcFix1, tcFix2],
    is_streaming := false, finish_reason := some "tool_calls" }

/-- A materialized tool-call record whose name and argument texts are
string-valued, as produced by an id-bearing opener fragment that carried
both fields. -/
def openerRec (i n a : String) : ToolCallRec :=
  { id := i, function := some { name := some n, arguments := some a } }

/-- A single-fragment continuation chunk (id-less fragment carrying the
given function fields). -/
def contChunk (fn : FnFields) : Chunk :=
  chunkOfFragment { id := none, function := some fn }

/-- Continuation-fragment fixture: id-less, contributing a name substring. -/
def contFrag1 : ToolCallFragment :=
  { id := none, function := some { name := some "x", arguments := none } }

/-- Chunk fixture with two content-bearing choices. -/
def twoContentChunk : Chunk :=
  { choices := some [{ delta := some { content := some "a" } },
                     { delta := some { content := some "b" } }] }

/-- The same chunk with every choice after the first removed. -/
def oneContentChunk : Chunk :=
  { choices := some [{ delta := some { content := some "a" } }] }

theorem truncateOld_role (m : Message) : (truncateOld m).role = m.role := by
  unfold truncateOld; split <;> rfl

theorem truncateOld_tool_call_id (m : Message) : (truncateOld m).tool_call_id = m.tool_call_id := by
  unfold truncateOld; split <;> rfl

theorem truncateOld_name (m : Message) : (truncateOld m).name = m.name := by
  unfold truncateOld; split <;> rfl

theorem truncateOld_tool_calls (m : Message) : (truncateOld m).tool_calls = m.tool_calls := by
  unfold truncateOld; split <;> rfl

theorem truncateOld_is_error (m : Message) : (truncateOld m).is_error = m.is_error := by
  unfold truncateOld; split <;> rfl

theorem truncateOld_of_not_tool {m : Message} (h : m.role ≠ "tool") : truncateOld m = m := by
  unfold truncateOld
  rw [if_neg]
  rintro ⟨h1, -⟩
  exact h h1

theorem truncateOld_idem (m : Message) : truncateOld (truncateOld m) = truncateOld m := by
  unfold truncateOld
  split
  case isTrue h =>
    have htake : (m.content.data.take 5000).length = 5000 := by
      rw [List.length_take]
      exact Nat.min_eq_left (le_of_lt h.2)
    rw [if_pos]
    · have hsame : (m.content.data.take 5000 ++ truncMarker.data).take 5000 = m.content.data.take 5000 := by
        rw [List.take_append_eq_append_take, htake]
        simp [List.take_take]
      congr 1
      show String.mk ((m.content.data.take 5000 ++ truncMarker.data).take 5000 ++ truncMarker.data) = _
      rw [hsame]
    · constructor
      · exact h.1
      · show 5000 < (m.content.data.take 5000 ++ truncMarker.data).length
        rw [List.length_append, htake]
        norm_num [truncMarker]
  case isFalse h =>
    rfl

theorem cleanUp_cons (m : Message) (ms : List Message) (h : ms ≠ []) :
    clean_up_tool_results_inline (m :: ms) =
      truncateOld m :: clean_up_tool_results_inline ms := by
  cases ms with
  | nil => exact absurd rfl h
  | cons a l => rfl

theorem cleanUp_length : ∀ ms : List Message,
    (clean_up_tool_results_inline ms).length = ms.length
  | [] => rfl
  | [_] => rfl
  | m :: m2 :: rest => by
    simp [clean_up_tool_results_inline, cleanUp_length (m2 :: rest)]

theorem cleanUp_map_eq {α : Type} (f : Message → α) (hf : ∀ m, f (truncateOld m) = f m) :
    ∀ ms : List Message,
      (clean_up_tool_results_inline ms).map f = ms.map f
  | [] => rfl
  | [_] => rfl
  | m :: m2 :: rest => by
    simp [clean_up_tool_results_inline, hf, cleanUp_map_eq f hf (m2 :: rest)]

theorem cleanUp_getElem : ∀ (ms : List Message) (i : Nat), i + 1 < ms.length →
    (clean_up_tool_results_inline ms)[i]? = (ms[i]?).map truncateOld
  | [], i, h => by simp at h
  | [_], i, h => by simp at h
  | m :: m2 :: rest, 0, _ => by
    simp [clean_up_tool_results_inline]
  | m :: m2 :: rest, j + 1, h => by
    have hj : j + 1 < (m2 :: rest).length := by
      simpa using Nat.lt_of_succ_lt_succ h
    simpa [clean_up_tool_results_inline] using cleanUp_getElem (m2 :: rest) j hj

theorem cleanUp_getLast : ∀ ms : List Message,
    (clean_up_tool_results_inline ms).getLast? = ms.getLast?
  | [] => rfl
  | [_] => rfl
  | m :: m2 :: rest => by
    have hne : clean_up_tool_results_inline (m2 :: rest) ≠ [] := by
      intro he
      have := cleanUp_length (m2 :: rest)
      rw [he] at this
      simp at this
    obtain ⟨y, ys, hys⟩ : ∃ y ys, clean_up_tool_results_inline (m2 :: rest) = y :: ys := by
      cases hc : clean_up_tool_results_inline (m2 :: rest) with
      | nil => exact absurd hc hne
      | cons y ys => exact ⟨y, ys, rfl⟩
    rw [cleanUp_cons m (m2 :: rest) (by simp), hys, List.getLast?_cons_cons, ← hys,
        cleanUp_getLast (m2 :: rest), List.getLast?_cons_cons]

theorem cleanUp_nontool : ∀ (ms : List Message) (i : Nat) (m : Message),
    ms[i]? = some m → m.role ≠ "tool" →
    (clean_up_tool_results_inline ms)[i]? = some m
  | [], i, m, h, _ => by simp at h
  | [x], i, m, h, _ => h
  | x :: x2 :: rest, 0, m, h, hr => by
    simp only [List.getElem?_cons_zero, Option.some.injEq] at h
    subst h
    simp [clean_up_tool_results_inline, truncateOld_of_not_tool hr]
  | x :: x2 :: rest, j + 1, m, h, hr => by
    simp only [List.getElem?_cons_succ] at h
    simpa [clean_up_tool_results_inline] using cleanUp_nontool (x2 :: rest) j m h hr

/-- C5: History Hygiene is idempotent — applying
`clean_up_tool_results_inline` twice to any conversation yields exactly the
same conversation as applying it once. -/
theorem clean_up_tool_results_idempotent (ms : List Message) :
    clean_up_tool_results_inline (clean_up_tool_results_inline ms) =
      clean_up_tool_results_inline ms := by
  induction ms with
  | nil => rfl
  | cons m rest ih =>
    cases rest with
    | nil => rfl
    | cons m2 tail =>
      have hne : clean_up_tool_results_inline (m2 :: tail) ≠ [] := by
        intro he
        have := cleanUp_length (m2 :: tail)
        rw [he] at this
        simp at this
      rw [cleanUp_cons m (m2 :: tail) (by simp),
          cleanUp_cons (truncateOld m) _ hne, truncateOld_idem, ih]

/-- C6: History Hygiene truncates every tool-role message that is not the
last message of the conversation and whose content exceeds 5000 characters
to its first 5000 characters plus the truncation marker (the `truncateOld`
transform embedded from `llm_handler.py` lines 66-69), and leaves the last
message untouched regardless of role or size. -/
theorem clean_up_truncates_old_tool_messages_only (ms : List Message) :
    (∀ i, i + 1 < ms.length →
        (clean_up_tool_results_inline ms)[i]? = (ms[i]?).map truncateOld)
    ∧ (clean_up_tool_results_inline ms).getLast? = ms.getLast? :=
  ⟨fun i h => cleanUp_getElem ms i h, cleanUp_getLast ms⟩

theorem clean_up_truncates_old_tool_messages_only_witness :
    ((0 : Nat) + 1 < 2
    ∧ (clean_up_tool_results_inline
        [{ role := "tool", content := "abc" }, { role := "user", content := "ok" }])[0]? =
      (([{ role := "tool", content := "abc" }, { role := "user", content := "ok" }] :
          List Message)[0]?).map truncateOld) := by
  refine ⟨by norm_num, ?_⟩
  exact (clean_up_truncates_old_tool_messages_only
    [{ role := "tool", content := "abc" }, { role := "user", content := "ok" }]).1 0 (by norm_num)

/-- C9: History Hygiene is a frame over everything except the content of
tool-role messages — it preserves the number and order of messages and the
`role`, `tool_call_id`, `name`, `tool_calls` and `is_error` fields of every
message, and leaves every non-tool message entirely unchanged. -/
theorem clean_up_frame_property (ms : List Message) :
    (clean_up_tool_results_inline ms).length = ms.length
    ∧ (clean_up_tool_results_inline ms).map Message.role = ms.map Message.role
    ∧ (clean_up_tool_results_inline ms).map Message.tool_call_id = ms.map Message.tool_call_id
    ∧ (clean_up_tool_results_inline ms).map Message.name = ms.map Message.name
    ∧ (clean_up_tool_results_inline ms).map Message.tool_calls = ms.map Message.tool_calls
    ∧ (clean_up_tool_results_inline ms).map Message.is_error = ms.map Message.is_error
    ∧ ∀ (i : Nat) (m : Message), ms[i]? = some m → m.role ≠ "tool" →
        (clean_up_tool_results_inline ms)[i]? = some m :=
  ⟨cleanUp_length ms,
   cleanUp_map_eq Message.role truncateOld_role ms,
   cleanUp_map_eq Message.tool_call_id truncateOld_tool_call_id ms,
   cleanUp_map_eq Message.name truncateOld_name ms,
   cleanUp_map_eq Message.tool_calls truncateOld_tool_calls ms,
   cleanUp_map_eq Message.is_error truncateOld_is_error ms,
   fun i m h hr => cleanUp_nontool ms i m h hr⟩

/-- C1: when all nine rate-limit headers are present, `sleep_seconds` is
the time until the reset of the first dimension — input tokens, then output
tokens, then requests — whose remaining is at or below one tenth of its
limit; it is zero when no dimension is that low, and the low test of a later
dimension is never consulted once an earlier one matches.  When any header
is absent, `sleep_seconds` is zero. -/
theorem rate_limit_sleep_uses_first_low_dimension (h : RLHeaders) (now : ℚ) :
    (allNine h = true →
      (lowQ (parsedLimits h).input_tokens →
        (get_response_metadata_from_headers h now).sleep_seconds =
          (parsedLimits h).input_tokens.reset - now)
      ∧ (¬ lowQ (parsedLimits h).input_tokens → lowQ (parsedLimits h).output_tokens →
        (get_response_metadata_from_headers h now).sleep_seconds =
          (parsedLimits h).output_tokens.reset - now)
      ∧ (¬ lowQ (parsedLimits h).input_tokens → ¬ lowQ (parsedLimits h).output_tokens →
          lowQ (parsedLimits h).requests →
        (get_response_metadata_from_headers h now).sleep_seconds =
          (parsedLimits h).requests.reset - now)
      ∧ (¬ lowQ (parsedLimits h).input_tokens → ¬ lowQ (parsedLimits h).output_tokens →
          ¬ lowQ (parsedLimits h).requests →
        (get_response_metadata_from_headers h now).sleep_seconds = 0))
    ∧ (allNine h = false →
        (get_response_metadata_from_headers h now).sleep_seconds = 0) := by
  constructor
  · intro hall
    refine ⟨?_, ?_, ?_, ?_⟩
    · intro h1
      simp [get_response_metadata_from_headers, hall, h1]
    · intro h1 h2
      simp [get_response_metadata_from_headers, hall, h1, h2]
    · intro h1 h2 h3
      simp [get_response_metadata_from_headers, hall, h1, h2, h3]
    · intro h1 h2 h3
      simp [get_response_metadata_from_headers, hall, h1, h2, h3]
  · intro hall
    simp [get_response_metadata_from_headers, hall]

theorem rate_limit_sleep_uses_first_low_dimension_witness :
    allNine hdrsBothLow = true
    ∧ lowQ (parsedLimits hdrsBothLow).input_tokens
    ∧ lowQ (parsedLimits hdrsBothLow).output_tokens
    ∧ (get_response_metadata_from_headers hdrsBothLow 10).sleep_seconds = 30 := by
  refine ⟨rfl, by norm_num [lowQ, parsedLimits, hdrsBothLow],
          by norm_num [lowQ, parsedLimits, hdrsBothLow], ?_⟩
  have := ((rate_limit_sleep_uses_first_low_dimension hdrsBothLow 10).1 rfl).1
    (by norm_num [lowQ, parsedLimits, hdrsBothLow])
  rw [this]
  norm_num [parsedLimits, hdrsBothLow]

/-- C10: if any one of the nine per-dimension rate-limit headers is
missing, the metadata extraction returns `sleep_seconds = 0` and an empty
`limits` mapping — partially present rate-limit metadata behaves exactly
like wholly absent metadata, and no quota value is materialized. -/
theorem partial_rate_limit_headers_treated_as_absent (h : RLHeaders) (now : ℚ)
    (hmiss : h.itLimit = none ∨ h.itRemaining = none ∨ h.itReset = none ∨
             h.otLimit = none ∨ h.otRemaining = none ∨ h.otReset = none ∨
             h.rqLimit = none ∨ h.rqRemaining = none ∨ h.rqReset = none) :
    (get_response_metadata_from_headers h now).limits = none
    ∧ (get_response_metadata_from_headers h now).sleep_seconds = 0 := by
  have hfalse : allNine h = false := by
    unfold allNine
    rcases hmiss with h1|h1|h1|h1|h1|h1|h1|h1|h1 <;> simp [h1]
  simp [get_response_metadata_from_headers, hfalse]

theorem partial_rate_limit_headers_treated_as_absent_witness :
    hdrsMissingOne.rqReset = none
    ∧ (get_response_metadata_from_headers hdrsMissingOne 10).limits = none
    ∧ (get_response_metadata_from_headers hdrsMissingOne 10).sleep_seconds = 0 := by
  refine ⟨rfl, ?_⟩
  exact partial_rate_limit_headers_treated_as_absent hdrsMissingOne 10
    (Or.inr (Or.inr (Or.inr (Or.inr (Or.inr (Or.inr (Or.inr (Or.inr rfl))))))))

/-- C2: evaluation of the backoff tail of the `tool_calls` branch at a
positive sleep duration (30 seconds).  The claim and spec §4.3 say one
`sleep_seconds` event and one suspension; the code emits the event twice
and suspends twice (60 seconds in total), because the sleep block of
`server.py` lines 164-176 is duplicated verbatim at lines 177-189. -/
theorem tool_calls_backoff_emits_sleep_event_twice :
    toolCallsBranchEvents "result" 30 =
      ([SEvent.toolResultEv "result", SEvent.sleepEv 30, SEvent.sleepEv 30], 60) := by
  norm_num [toolCallsBranchEvents, sleepBlock]

theorem execToolCalls_ok (oracle : ToolCallRec → String × Bool) :
    ∀ (l : List ToolCallRec), (∀ t ∈ l, t.function.isSome) →
      ∃ ms, execute_tool_calls_and_get_user_message oracle l = .ok ms ∧ ms.length = l.length
  | [], _ => ⟨[], rfl, rfl⟩
  | tc :: rest, hf => by
    obtain ⟨fn, hfn⟩ : ∃ fn, tc.function = some fn := by
      have := hf tc (by simp)
      cases hcc : tc.function with
      | none => rw [hcc] at this; simp at this
      | some fn => exact ⟨fn, rfl⟩
    obtain ⟨ms, hms, hlen⟩ := execToolCalls_ok oracle rest (fun t ht => hf t (by simp [ht]))
    refine ⟨{ role := "tool", content := (oracle tc).1, tool_call_id := some tc.id,
              name := fn.name, is_error := some (oracle tc).2 } :: ms, ?_, ?_⟩
    · unfold execute_tool_calls_and_get_user_message
      rw [hfn, hms]
    · simp [hlen]

/-- C8: when a provider turn ends with finish reason `tool_calls`, the
orchestrator appends exactly one assistant message (with its `tool_calls`
field populated) followed by exactly one tool-role message carrying the
first ToolCall's result — even when the turn materialized several
ToolCalls, whose results beyond the first are dropped. -/
theorem tool_turn_appends_one_assistant_and_one_tool_message
    (st : AccState) (oracle : ToolCallRec → String × Bool)
    (tc : ToolCallRec) (rest : List ToolCallRec) (fn : FnFields)
    (hfin : st.finish_reason = some "tool_calls")
    (hcalls : st.tool_calls = tc :: rest)
    (hfn : tc.function = some fn)
    (hrest : ∀ t ∈ rest, t.function.isSome) :
    turnAppendedMessages st oracle =
      .ok [get_assistant_message st,
           { role := "tool", content := (oracle tc).1, tool_call_id := some tc.id,
             name := fn.name, is_error := some (oracle tc).2 }]
    ∧ (get_assistant_message st).role = "assistant"
    ∧ (get_assistant_message st).tool_calls = tc :: rest := by
  obtain ⟨ms, hms, hlen⟩ := execToolCalls_ok oracle rest hrest
  refine ⟨?_, ?_, ?_⟩
  · unfold turnAppendedMessages
    rw [if_pos hfin, hcalls]
    unfold execute_tool_calls_and_get_user_message
    rw [hfn, hms]
  · unfold get_assistant_message
    split <;> rfl
  · unfold get_assistant_message
    rw [if_neg (by rw [hcalls]; simp), hcalls]

theorem tool_turn_appends_one_assistant_and_one_tool_message_witness :
    stTwoCalls.finish_reason = some "tool_calls"
    ∧ stTwoCalls.tool_calls = tcFix1 :: [tcFix2]
    ∧ turnAppendedMessages stTwoCalls (fun _ => ("res", false)) =
        .ok [get_assistant_message stTwoCalls,
             { role := "tool", content := "res", tool_call_id := some "i1",
               name := some "f", is_error := some false }] := by
  refine ⟨rfl, rfl, ?_⟩
  exact (tool_turn_appends_one_assistant_and_one_tool_message stTwoCalls
    (fun _ => ("res", false)) tcFix1 [tcFix2]
    { name := some "f", arguments := some "\x7b\x7d" }
    rfl rfl rfl (by simp [tcFix2])).1

theorem clean_up_frame_property_witness :
    (([{ role := "tool", content := "r1" }, { role := "user", content := "hi" },
       { role := "assistant", content := "a" }] : List Message)[1]? =
        some { role := "user", content := "hi" }
    ∧ ({ role := "user", content := "hi" } : Message).role ≠ "tool"
    ∧ (clean_up_tool_results_inline
        [{ role := "tool", content := "r1" }, { role := "user", content := "hi" },
         { role := "assistant", content := "a" }])[1]? =
        some { role := "user", content := "hi" }) := by
  refine ⟨by decide, by decide, ?_⟩
  exact (clean_up_frame_property
    [{ role := "tool", content := "r1" }, { role := "user", content := "hi" },
     { role := "assistant", content := "a" }]).2.2.2.2.2.2 1
    { role := "user", content := "hi" } (by decide) (by decide)

theorem processFragment_congr (f : ToolCallFragment) (st st' : AccState)
    (sc sc' : StreamDelta) (h : eq3 st st') :
    eq3 (processFragment st sc f).1 (processFragment st' sc' f).1
    ∧ (processFragment st sc f).2.2 = (processFragment st' sc' f).2.2 := by
  obtain ⟨h1, h2, h3⟩ := h
  unfold processFragment
  rw [h2]
  cases hfs : fragStep st'.tool_calls f with
  | mk tcs1 err =>
    cases err <;> simp [eq3, h1, h2, h3]

theorem processFragList_congr : ∀ (l : List ToolCallFragment) (st st' : AccState)
    (sc sc' : StreamDelta), eq3 st st' →
    eq3 (processFragList st sc l).1 (processFragList st' sc' l).1
    ∧ (processFragList st sc l).2.2 = (processFragList st' sc' l).2.2
  | [], _, _, _, _, h => ⟨h, rfl⟩
  | f :: rest, st, st', sc, sc', h => by
    obtain ⟨hc, he⟩ := processFragment_congr f st st' sc sc' h
    unfold processFragList
    cases hA : processFragment st sc f with
    | mk stA rA =>
      cases hB : processFragment st' sc' f with
      | mk stB rB =>
        rw [hA, hB] at hc he
        obtain ⟨scA, eA⟩ := rA
        obtain ⟨scB, eB⟩ := rB
        simp only at hc he
        cases eA with
        | none =>
          cases eB with
          | none => simpa using processFragList_congr rest stA stB scA scB hc
          | some eb => simp at he
        | some ea =>
          cases eB with
          | none => simp at he
          | some eb =>
            simp only [Option.some.injEq] at he
            subst he
            exact ⟨hc, rfl⟩

theorem contentStep_congr (c : Choice) (st st' : AccState) (sc sc' : StreamDelta)
    (h : eq3 st st') :
    eq3 (contentStep st sc c).1 (contentStep st' sc' c).1 := by
  obtain ⟨h1, h2, h3⟩ := h
  unfold contentStep
  cases c.delta with
  | none => simp [eq3, h1, h2, h3]
  | some d =>
    obtain ⟨dc, dtc⟩ := d
    cases dc with
    | none => simp [eq3, h1, h2, h3]
    | some s =>
      by_cases hs : s.isEmpty <;> simp [hs, eq3, h1, h2, h3]

theorem finishStep_congr (c : Choice) (st st' : AccState) (h : eq3 st st') :
    eq3 (finishStep st c) (finishStep st' c) := by
  obtain ⟨h1, h2, h3⟩ := h
  unfold finishStep
  by_cases hf : truthy c.finish_reason <;> simp [hf, eq3, h1, h2, h3]

theorem processChoice_congr (c : Choice) (st st' : AccState) (sc sc' : StreamDelta)
    (h : eq3 st st') :
    eq3 (processChoice st sc c).1 (processChoice st' sc' c).1
    ∧ (processChoice st sc c).2.2 = (processChoice st' sc' c).2.2 := by
  have hcs := contentStep_congr c st st' sc sc' h
  obtain ⟨hc, he⟩ := processFragList_congr (fragsOf c)
    (contentStep st sc c).1 (contentStep st' sc' c).1
    (contentStep st sc c).2 (contentStep st' sc' c).2 hcs
  simp only [processChoice]
  cases hA : processFragList (contentStep st sc c).1 (contentStep st sc c).2 (fragsOf c) with
  | mk stA rA =>
    cases hB : processFragList (contentStep st' sc' c).1 (contentStep st' sc' c).2 (fragsOf c) with
    | mk stB rB =>
      rw [hA, hB] at hc he
      obtain ⟨scA, eA⟩ := rA
      obtain ⟨scB, eB⟩ := rB
      simp only at hc he
      cases eA with
      | none =>
        cases eB with
        | none => exact ⟨finishStep_congr c stA stB hc, rfl⟩
        | some eb => simp at he
      | some ea =>
        cases eB with
        | none => simp at he
        | some eb =>
          simp only [Option.some.injEq] at he
          subst he
          exact ⟨hc, rfl⟩

theorem processChoices_single (st : AccState) (sc : StreamDelta) (c : Choice) :
    processChoices st sc [c] = processChoice st sc c := by
  cases hA : processChoice st sc c with
  | mk st1 r =>
    obtain ⟨sc1, e⟩ := r
    cases e with
    | none => simp [processChoices, hA]
    | some ee => simp [processChoices, hA]

theorem choices_vs_singleton_chunks : ∀ (cs : List Choice) (st st' : AccState)
    (sc : StreamDelta), eq3 st st' →
    eq3 (processChoices st sc cs).1 (runChunks st' (cs.map singleChunk)).1
    ∧ (processChoices st sc cs).2.2 = (runChunks st' (cs.map singleChunk)).2
  | [], _, _, _, h => ⟨h, rfl⟩
  | c :: rest, st, st', sc, h => by
    have h' : eq3 st { st' with is_streaming := true } := h
    obtain ⟨hc, he⟩ := processChoice_congr c st { st' with is_streaming := true } sc {} h'
    have hpc : process_chunk st' (singleChunk c) =
        processChoice { st' with is_streaming := true } {} c := by
      simp [process_chunk, singleChunk, processChoices_single]
    simp only [List.map_cons, runChunks, processChoices, hpc]
    cases hA : processChoice st sc c with
    | mk stA rA =>
      cases hB : processChoice { st' with is_streaming := true } {} c with
      | mk stB rB =>
        rw [hA, hB] at hc he
        obtain ⟨scA, eA⟩ := rA
        obtain ⟨scB, eB⟩ := rB
        simp only at hc he
        cases eA with
        | none =>
          cases eB with
          | none => simpa using choices_vs_singleton_chunks rest stA stB scA hc
          | some eb => simp at he
        | some ea =>
          cases eB with
          | none => simp at he
          | some eb =>
            simp only [Option.some.injEq] at he
            subst he
            exact ⟨hc, rfl⟩

theorem bumpName_strings (i n a : String) (fn : FnFields) :
    bumpName (openerRec i n a) fn = .ok (openerRec i (n ++ fn.name.getD "") a) := by
  unfold bumpName openerRec
  cases hfn : fn.name with
  | none => simp [truthy, String.append_empty]
  | some s =>
    by_cases hs : s.isEmpty
    · have h0 : s = "" := (String.isEmpty_iff s).1 hs
      subst h0
      simp [truthy, String.append_empty]
    · simp [truthy, hs]

theorem bumpArgs_strings (i n a : String) (fn : FnFields) :
    bumpArgs (openerRec i n a) fn = .ok (openerRec i n (a ++ fn.arguments.getD "")) := by
  unfold bumpArgs openerRec
  cases hfn : fn.arguments with
  | none => simp [truthy, String.append_empty]
  | some s =>
    by_cases hs : s.isEmpty
    · have h0 : s = "" := (String.isEmpty_iff s).1 hs
      subst h0
      simp [truthy, String.append_empty]
    · simp [truthy, hs]

theorem process_chunk_contChunk (c0 : String) (b : Bool) (fr : Option String)
    (i n a : String) (fn : FnFields) :
    process_chunk { content := c0, tool_calls := [openerRec i n a],
                    is_streaming := b, finish_reason := fr } (contChunk fn) =
      ({ content := c0,
         tool_calls := [openerRec i (n ++ fn.name.getD "") (a ++ fn.arguments.getD "")],
         is_streaming := true, finish_reason := fr },
       fragDelta {} { id := none, function := some fn }, none) := by
  simp [process_chunk, contChunk, chunkOfFragment, processChoices, processChoice,
        contentStep, fragsOf, finishStep, processFragList, processFragment, fragStep,
        truthy, bumpName_strings, bumpArgs_strings]

theorem runChunks_conts : ∀ (conts : List FnFields) (c0 : String) (b : Bool)
    (fr : Option String) (i n a : String),
    runChunks { content := c0, tool_calls := [openerRec i n a],
                is_streaming := b, finish_reason := fr }
      (conts.map contChunk) =
    ({ content := c0,
       tool_calls := [openerRec i (conts.foldl (fun acc fn => acc ++ fn.name.getD "") n)
                                  (conts.foldl (fun acc fn => acc ++ fn.arguments.getD "") a)],
       is_streaming := if conts.isEmpty then b else true, finish_reason := fr }, none)
  | [], c0, b, fr, i, n, a => by simp [runChunks]
  | fn :: rest, c0, b, fr, i, n, a => by
    simp only [List.map_cons, runChunks, process_chunk_contChunk]
    rw [runChunks_conts rest c0 true fr i (n ++ fn.name.getD "") (a ++ fn.arguments.getD "")]
    simp

/-- C3 counterexample: a continuation tool-call fragment (no id) arriving
when no ToolCall has been opened makes `process_chunk` raise an uncaught
`IndexError` (`self.tool_calls[-1]` on an empty list) — contradicting the
claim that no exception escapes and the chunk is merely skipped. -/
theorem continuation_without_open_tool_call_raises :
    (process_chunk { content := "hi" } (chunkOfFragment contFrag1)).2.2 =
      some PyError.indexError := by decide

/-- C3 (amended): a chunk whose choices list is present but empty is
processed without error and leaves the whole accumulator unchanged apart
from the `is_streaming` flag; there is no local `MalformedChunkError`
recovery — a chunk lacking the `choices` attribute raises `AttributeError`,
and a continuation fragment arriving with no previously opened ToolCall
raises `IndexError`; both escape `process_chunk` (aborting the turn via the
orchestrator's outer exception handler). -/
theorem malformed_chunk_local_behavior (st : AccState) (f : ToolCallFragment)
    (hcalls : st.tool_calls = []) (hid : f.id = none) :
    process_chunk st { choices := some [] } = ({ st with is_streaming := true }, {}, none)
    ∧ (process_chunk st { choices := none }).2.2 = some PyError.attributeError
    ∧ (process_chunk st (chunkOfFragment f)).2.2 = some PyError.indexError := by
  refine ⟨rfl, rfl, ?_⟩
  simp [process_chunk, chunkOfFragment, processChoices, processChoice, contentStep, fragsOf,
        finishStep, processFragList, processFragment, fragStep, truthy, hid, hcalls]

theorem malformed_chunk_local_behavior_witness :
    (AccState.mk "" [] false none).tool_calls = []
    ∧ (ToolCallFragment.mk none none).id = none
    ∧ (process_chunk (AccState.mk "" [] false none)
        (chunkOfFragment (ToolCallFragment.mk none none))).2.2 = some PyError.indexError := by
  refine ⟨rfl, rfl, ?_⟩
  exact (malformed_chunk_local_behavior (AccState.mk "" [] false none)
    (ToolCallFragment.mk none none) rfl rfl).2.2

/-- C4 counterexample: a chunk with two content-bearing choices appends
both contents ("ab"), so its resulting accumulator differs from that of
the same chunk with every choice after the first removed ("a") — the
second choice's delta does affect the accumulator. -/
theorem second_choice_changes_accumulator :
    (process_chunk {} twoContentChunk).1.content = "ab"
    ∧ (process_chunk {} oneContentChunk).1.content = "a"
    ∧ (process_chunk {} twoContentChunk).1 ≠ (process_chunk {} oneContentChunk).1 := by
  refine ⟨?_, ?_, ?_⟩ <;> decide

/-- C4 (amended): `process_chunk` folds EVERY choice of a chunk into the
accumulator in order — on the accumulated text, tool-call list, finish
reason and raised error it is equivalent to processing each choice as its
own single-choice chunk sequentially, not to dropping the choices after
the first. -/
theorem chunk_folds_all_choices_like_sequential_chunks (cs : List Choice) (st : AccState) :
    eq3 (process_chunk st { choices := some cs }).1 (runChunks st (cs.map singleChunk)).1
    ∧ (process_chunk st { choices := some cs }).2.2 = (runChunks st (cs.map singleChunk)).2 := by
  have h : eq3 { st with is_streaming := true } st := ⟨rfl, rfl, rfl⟩
  have hmain := choices_vs_singleton_chunks cs { st with is_streaming := true } st {} h
  simpa [process_chunk] using hmain

/-- C7: a fragment sequence of one id-bearing opener (carrying string name
and argument fields) followed by any number of id-less continuation
fragments yields exactly one ToolCall record, whose name and argument
texts are the concatenations, in arrival order, of the substrings the
fragments contributed (absent fields contribute nothing). -/
theorem tool_call_fragment_concatenation (i n a : String) (hi : i ≠ "")
    (conts : List FnFields) :
    (runChunks {}
      (chunkOfFragment { id := some i, function := some { name := some n, arguments := some a } }
        :: conts.map contChunk)).2 = none
    ∧ (runChunks {}
      (chunkOfFragment { id := some i, function := some { name := some n, arguments := some a } }
        :: conts.map contChunk)).1.tool_calls =
      [openerRec i (conts.foldl (fun acc fn => acc ++ fn.name.getD "") n)
                   (conts.foldl (fun acc fn => acc ++ fn.arguments.getD "") a)] := by
  have hie : i.isEmpty = false := by
    cases hb : i.isEmpty with
    | false => rfl
    | true => exact absurd ((String.isEmpty_iff i).1 hb) hi
  have hopen : process_chunk {}
      (chunkOfFragment { id := some i, function := some { name := some n, arguments := some a } }) =
      ({ content := "", tool_calls := [openerRec i n a],
         is_streaming := true, finish_reason := none },
       fragDelta {} { id := some i, function := some { name := some n, arguments := some a } },
       none) := by
    simp [process_chunk, chunkOfFragment, processChoices, processChoice, contentStep, fragsOf,
          finishStep, processFragList, processFragment, fragStep, truthy, hie, openerRec]
  simp only [runChunks, hopen]
  rw [runChunks_conts conts "" true none i n a]
  simp

theorem tool_call_fragment_concatenation_witness :
    ("id1" : String) ≠ ""
    ∧ (runChunks {}
      (chunkOfFragment { id := some "id1", function := some { name := some "get", arguments := some "" } }
        :: [({ name := none, arguments := some "ab" } : FnFields),
            ({ name := some "x", arguments := some "cd" } : FnFields)].map contChunk)).1.tool_calls =
      [openerRec "id1" "getx" "abcd"] := by
  refine ⟨by decide, ?_⟩
  have h := tool_call_fragment_concatenation "id1" "get" "" (by decide)
    [({ name := none, arguments := some "ab" } : FnFields),
     ({ name := some "x", arguments := some "cd" } : FnFields)]
  rw [h.2]
  decide
